import Mathlib

/-!
Verification of the feedburst parsing core (`src/parser.rs`).

Text is represented as `List Char`.  The cursor type `Buffer` and its
primitive operations live in the repository's `parse_util.rs`, which is not
part of the sources given; they are modelled from the specification (§4.1).
The typed results (`FeedInfo`, `UpdateSpec`, `FilterType`, `FeedEvent`) live
in `feed.rs`, also absent; they are modelled from the specification (§3).
Everything in `parser.rs` is translated directly from that source file.

Rust `Result` plus the possibility of a panic is modelled by `PResult`:
`ok`, `err` (a `ParseError`), or `panic` (an uncatchable fault, e.g. the
`expect` in `parse_number`).
-/

set_option maxHeartbeats 1000000

namespace Feedburst

/-- Characters of a string literal. -/
def strL (s : String) : List Char := s.data

/-- Does `l` begin with `p` (exact characters)? -/
def startsWithL : (p l : List Char) → Bool
  | [], _ => true
  | _ :: _, [] => false
  | a :: as, b :: bs => a = b && startsWithL as bs

/-- Does `l` begin with `p`, comparing characters case-insensitively? -/
def startsWithNoCaseL : (p l : List Char) → Bool
  | [], _ => true
  | _ :: _, [] => false
  | a :: as, b :: bs => a.toLower = b.toLower && startsWithNoCaseL as bs

/-- Does `big` contain `small` as a contiguous run? -/
def containsL (small : List Char) : (big : List Char) → Bool
  | [] => startsWithL small []
  | b :: bs => startsWithL small (b :: bs) || containsL small bs

/-- Scan for the first occurrence of `close`, returning the characters
before it and the characters after it. -/
def scanTo (close : Char) : List Char → Option (List Char × List Char)
  | [] => none
  | c :: rest =>
    if c = close then some ([], rest)
    else match scanTo close rest with
         | some (inner, after) => some (c :: inner, after)
         | none => none

/-- Base-10 value of a digit run. -/
def natOfDigits (ds : List Char) : Nat :=
  ds.foldl (fun acc c => acc * 10 + (c.toNat - ('0').toNat)) 0

/-- Drop leading whitespace. -/
def trimStartL (l : List Char) : List Char := l.dropWhile Char.isWhitespace

/-- Drop trailing whitespace. -/
def trimEndL (l : List Char) : List Char :=
  (l.reverse.dropWhile Char.isWhitespace).reverse

/-- Drop whitespace at both ends. -/
def trimL (l : List Char) : List Char := trimEndL (trimStartL l)

/-- Split on newline characters (every `'\n'` separates). -/
def splitNL : List Char → List (List Char)
  | [] => [[]]
  | c :: rest =>
    if c = '\n' then [] :: splitNL rest
    else match splitNL rest with
         | l :: ls => (c :: l) :: ls
         | [] => [[c]]

/-- Remove one trailing carriage return, as Rust `str::lines` does. -/
def stripCR (l : List Char) : List Char :=
  match l.reverse with
  | '\r' :: rest => rest.reverse
  | _ => l

/-- The lines of an input, as produced by Rust `str::lines`: split on
`'\n'`, drop the final empty piece left by a trailing newline, strip one
trailing `'\r'` per line. -/
def rustLines (s : List Char) : List (List Char) :=
  let parts := splitNL s
  (if parts.getLast? = some [] then parts.dropLast else parts).map stripCR

/-- Join pieces with a separator (for error messages enumerating tokens). -/
def joinSep (sep : List Char) : List (List Char) → List Char
  | [] => []
  | [x] => x
  | x :: xs => x ++ sep ++ joinSep sep xs

/-! ## Error model (from `src/error.rs`) -/

/-- `ParseError` from `error.rs`: expected a specific character, or an
expected-construct message; both carry a row and an optional span. -/
inductive ParseError where
  | Expected (character : Char) (row : Nat) (span : Option (Nat × Nat))
  | ExpectedMsg (msg : List Char) (row : Nat) (span : Option (Nat × Nat))
  deriving DecidableEq, Repr

/-- Outcome of running a fallible Rust function: a value, a `ParseError`,
or an uncatchable panic. -/
inductive PResult (α : Type) where
  | ok : α → PResult α
  | err : ParseError → PResult α
  | panic : PResult α
  deriving Repr

instance {α : Type} [DecidableEq α] : DecidableEq (PResult α) := fun a b =>
  match a, b with
  | .ok x, .ok y =>
    if h : x = y then .isTrue (by rw [h]) else .isFalse (by simp [h])
  | .ok _, .err _ => .isFalse (by simp)
  | .ok _, .panic => .isFalse (by simp)
  | .err _, .ok _ => .isFalse (by simp)
  | .err e, .err f =>
    if h : e = f then .isTrue (by rw [h]) else .isFalse (by simp [h])
  | .err _, .panic => .isFalse (by simp)
  | .panic, .ok _ => .isFalse (by simp)
  | .panic, .err _ => .isFalse (by simp)
  | .panic, .panic => .isTrue rfl

def PResult.bind {α β : Type} : PResult α → (α → PResult β) → PResult β
  | .ok a, f => f a
  | .err e, _ => .err e
  | .panic, _ => .panic

def PResult.map {α β : Type} (f : α → β) : PResult α → PResult β
  | .ok a => .ok (f a)
  | .err e => .err e
  | .panic => .panic

instance : Monad PResult where
  pure := PResult.ok
  bind := PResult.bind
  map := PResult.map

/-! ## Data model
Modelled from the spec: `feed.rs` (the `FeedInfo`, `UpdateSpec`,
`FilterType`, `FeedEvent` types) is not among the given sources; the
definitions below follow spec §3 (structural equality, `update_policies`
a deduplicating set, order irrelevant). -/

/-- Modelled from the spec: weekday values (`chrono::Weekday`). -/
inductive Weekday where
  | sun | mon | tue | wed | thu | fri | sat
  deriving DecidableEq, Repr

/-- Modelled from the spec: the four filter kinds. -/
inductive FilterType where
  | KeepTitle | KeepUrl | IgnoreTitle | IgnoreUrl
  deriving DecidableEq, Repr

/-- Modelled from the spec: one update-policy specification. -/
inductive UpdateSpec where
  | On (w : Weekday)
  | Every (n : Nat)
  | Overlap (n : Nat)
  | Comics (n : Nat)
  | Filter (kind : FilterType) (pat : List Char)
  | OpenAll
  deriving DecidableEq, Repr

/-- Modelled from the spec: one feed entry.  `update_policies` is a set
under structural equality (Rust `HashSet`), modelled as a `Finset`. -/
structure FeedInfo where
  name : List Char
  url : List Char
  update_policies : Finset UpdateSpec
  root : Option (List Char)
  command : Option (List (List Char))
  deriving DecidableEq

/-- Modelled from the spec: one event-log entry.  The timestamp of a
`Read` is kept as the raw accepted text (the external `chrono` parser is
modelled by an acceptance oracle). -/
inductive FeedEvent where
  | Read (date : List Char)
  | ComicUrl (url : List Char)
  deriving DecidableEq, Repr

/-! ## Cursor
Modelled from the spec: `parse_util.rs` (the `Buffer` type and its
primitive operations) is not among the given sources; the operations below
follow spec §4.1 and the error shapes observable in `parser.rs` tests
(`Buffer::expected` produces a one-point span at the current column). -/

structure Buffer where
  row : Nat
  col : Nat
  text : List Char
  deriving DecidableEq, Repr

namespace Buffer

/-- Modelled from the spec: consume exactly `n` characters. -/
def advance (b : Buffer) (n : Nat) : Buffer :=
  ⟨b.row, b.col + n, b.text.drop n⟩

/-- Modelled from the spec: drop leading whitespace, adjusting the column. -/
def trim_start (b : Buffer) : Buffer :=
  ⟨b.row, b.col + (b.text.takeWhile Char.isWhitespace).length,
    b.text.dropWhile Char.isWhitespace⟩

/-- Modelled from the spec: drop whitespace at both ends. -/
def trim (b : Buffer) : Buffer :=
  let b' := b.trim_start
  ⟨b'.row, b'.col, trimEndL b'.text⟩

/-- Modelled from the spec: next character without consuming. -/
def peek (b : Buffer) : Option Char := b.text.head?

/-- Modelled from the spec: boolean probe for a literal. -/
def starts_with (b : Buffer) (lit : List Char) : Bool :=
  startsWithL lit b.text

/-- Modelled from the spec: case-insensitive probe for a literal. -/
def starts_with_no_case (b : Buffer) (lit : List Char) : Bool :=
  startsWithNoCaseL lit b.text

/-- Modelled from the spec: an expected-construct error at the cursor's
current position (row, one-point span at the column). -/
def expected (b : Buffer) (msg : List Char) : ParseError :=
  .ExpectedMsg msg b.row (some (b.col, b.col))

/-- Modelled from the spec: consume the literal if present, else fail
naming the literal at the current position. -/
def token (b : Buffer) (lit : List Char) : PResult Buffer :=
  if b.starts_with lit then .ok (b.advance lit.length)
  else .err (b.expected lit)

/-- Modelled from the spec: case-insensitive `token`. -/
def token_no_case (b : Buffer) (lit : List Char) : PResult Buffer :=
  if b.starts_with_no_case lit then .ok (b.advance lit.length)
  else .err (b.expected lit)

/-- Modelled from the spec: consume one run of whitespace; fails if the
next character is not whitespace. -/
def space (b : Buffer) : PResult Buffer :=
  match b.text.head? with
  | some c =>
    if c.isWhitespace then .ok b.trim_start
    else .err (.Expected ' ' b.row (some (b.col, b.col)))
  | none => .err (.Expected ' ' b.row (some (b.col, b.col)))

/-- Modelled from the spec: succeeds if whitespace follows or the cursor
is exhausted. -/
def space_or_end (b : Buffer) : PResult Buffer :=
  match b.text.head? with
  | some c =>
    if c.isWhitespace then .ok b.trim_start
    else .err (b.expected (strL "whitespace or end of input"))
  | none => .ok b

/-- Modelled from the spec: require `open` next, read up to the next
`close`, consume both delimiters, return the inner text. -/
def read_between (b : Buffer) (openc closec : Char) : PResult (Buffer × List Char) :=
  match b.text with
  | [] => .err (.Expected openc b.row (some (b.col, b.col)))
  | c :: rest =>
    if c = openc then
      match scanTo closec rest with
      | some (inner, after) =>
        .ok (⟨b.row, b.col + inner.length + 2, after⟩, inner)
      | none => .err (.Expected closec b.row (some (b.col, b.col)))
    else .err (.Expected openc b.row (some (b.col, b.col)))

/-- Modelled from the spec: try each candidate literal in order,
case-insensitively; return the advanced buffer and the matching candidate,
or fail with a message enumerating all candidates. -/
def first_token_of_no_case (b : Buffer) (cands : List (List Char)) : PResult (Buffer × List Char) :=
  match cands.find? (fun c => b.starts_with_no_case c) with
  | some c => .ok (b.advance c.length, c)
  | none => .err (b.expected (strL "one of " ++ joinSep (strL ", ") cands))

end Buffer

/-! ## `src/parser.rs`, translated function by function.

The external `regex` crate's `Regex::new` is modelled by an oracle
`rx : List Char → Option (List Char)` returning `none` when the pattern is
a valid regular expression and `some diagnostic` otherwise; the external
`chrono` timestamp parser (used by `parse_events`) is modelled by an
acceptance oracle `chrono : List Char → Bool`. -/

/-- `parse_command_part` from `parser.rs`. -/
def parse_command_part (b0 : Buffer) : PResult (Buffer × List Char) :=
  let b := b0.trim_start
  match b.peek with
  | some '\'' => b.read_between '\'' '\''
  | some '"' => b.read_between '"' '"'
  | _ =>
    match b.text.findIdx? Char.isWhitespace with
    | some off => .ok (b.advance off, b.text.take off)
    | none => .ok (b.advance b.text.length, b.text)

/-- The `while` loop of `parse_command_internal`, with explicit fuel.
Each iteration on a nonempty buffer consumes at least one character, so
`text.length + 1` fuel never runs out; exhaustion is mapped to `panic`
only to totalise the function. -/
def parse_command_go : Nat → List (List Char) → Buffer → PResult (Buffer × List (List Char))
  | 0, _, _ => .panic
  | fuel + 1, acc, b =>
    if b.text.isEmpty then .ok (b, acc)
    else
      match parse_command_part b with
      | .ok (b2, part) => parse_command_go fuel (acc ++ [part]) b2.trim_start
      | .err e => .err e
      | .panic => .panic

/-- `parse_command` from `parser.rs`: tokenizes its input as a fresh
buffer at row 0, column 0. -/
def parse_command (input : List Char) : PResult (List (List Char)) :=
  let buf := (Buffer.mk 0 0 input).trim
  match parse_command_go (buf.text.length + 1) [] buf with
  | .ok (_, out) => .ok out
  | .err e => .err e
  | .panic => .panic

/-- Rust `usize::MAX` on a 64-bit target. -/
def usizeMax : Nat := 2 ^ 64 - 1

/-- `parse_number` from `parser.rs`: maximal leading digit run.  The Rust
code runs `.parse::<usize>().expect("Should only contain digits")`; a
digit run whose value exceeds `usize::MAX` makes `parse` fail and `expect`
panic, modelled by `.panic`. -/
def parse_number (buf : Buffer) : PResult (Buffer × Nat) :=
  let b := buf.trim_start
  let ds := b.text.takeWhile Char.isDigit
  if ds.length = 0 then .err (b.expected (strL "digit"))
  else if natOfDigits ds ≤ usizeMax then .ok (b.advance ds.length, natOfDigits ds)
  else .panic

/-- The lowercase name of each weekday, as matched by `parse_weekday`. -/
def weekdayName : Weekday → List Char
  | .sun => strL "sunday"
  | .mon => strL "monday"
  | .tue => strL "tuesday"
  | .wed => strL "wednesday"
  | .thu => strL "thursday"
  | .fri => strL "friday"
  | .sat => strL "saturday"

/-- The seven weekdays in the order `parse_weekday` tries them. -/
def weekdayList : List Weekday := [.sun, .mon, .tue, .wed, .thu, .fri, .sat]

/-- The `keep`/`ignore` keyword that produces each filter kind. -/
def filterKindStr : FilterType → List Char
  | .KeepTitle => ['k', 'e', 'e', 'p']
  | .KeepUrl => ['k', 'e', 'e', 'p']
  | .IgnoreTitle => ['i', 'g', 'n', 'o', 'r', 'e']
  | .IgnoreUrl => ['i', 'g', 'n', 'o', 'r', 'e']

/-- The `title`/`url` keyword that produces each filter kind. -/
def filterTargetStr : FilterType → List Char
  | .KeepTitle => ['t', 'i', 't', 'l', 'e']
  | .KeepUrl => ['u', 'r', 'l']
  | .IgnoreTitle => ['t', 'i', 't', 'l', 'e']
  | .IgnoreUrl => ['u', 'r', 'l']

/-- `parse_weekday` from `parser.rs`. -/
def parse_weekday (b : Buffer) : PResult (Buffer × Weekday) :=
  if b.starts_with_no_case (strL "sunday") then .ok (b.advance 6, .sun)
  else if b.starts_with_no_case (strL "monday") then .ok (b.advance 6, .mon)
  else if b.starts_with_no_case (strL "tuesday") then .ok (b.advance 7, .tue)
  else if b.starts_with_no_case (strL "wednesday") then .ok (b.advance 9, .wed)
  else if b.starts_with_no_case (strL "thursday") then .ok (b.advance 8, .thu)
  else if b.starts_with_no_case (strL "friday") then .ok (b.advance 6, .fri)
  else if b.starts_with_no_case (strL "saturday") then .ok (b.advance 8, .sat)
  else .err (b.expected (strL "a weekday"))

/-- The grammar-level error message of `parse_policy`'s final branch. -/
def policyGrammarMsg : List Char :=
  strL "a policy definition. One of:\n - \"@ on WEEKDAY\"\n - \"@ every # day(s)\"\n - \"@ # new comic(s)\"\n - \"@ overlap # comic(s)\"\n - \"@ keep pattern /pattern/\"\n - \"@ ignore pattern /pattern/\"\n - \"@ open all\""

/-- `parse_policy` from `parser.rs`.  The `unreachable!` arm of the
filter-kind match is modelled by `.panic`. -/
def parse_policy (rx : List Char → Option (List Char)) (buf : Buffer) :
    PResult (Buffer × UpdateSpec) := do
  let b ← (buf.trim_start).token (strL "@")
  let b ← b.space
  if b.starts_with_no_case (strL "on") then do
    let b ← b.token_no_case (strL "on")
    let b ← b.space
    let (b, w) ← parse_weekday b
    let b ← b.space_or_end
    return (b, .On w)
  else if b.starts_with_no_case (strL "every") then do
    let b ← b.token_no_case (strL "every")
    let b ← b.space
    let (b, count) ← parse_number b
    let b ← b.space
    let (b, _) ← b.first_token_of_no_case [strL "days", strL "day"]
    let b ← b.space_or_end
    return (b, .Every count)
  else if b.starts_with_no_case (strL "overlap") then do
    let b ← b.token_no_case (strL "overlap")
    let b ← b.space
    let (b, count) ← parse_number b
    let b ← b.space
    let (b, _) ← b.first_token_of_no_case [strL "comics", strL "comic"]
    let b ← b.space_or_end
    return (b, .Overlap count)
  else if b.starts_with_no_case (strL "keep") || b.starts_with_no_case (strL "ignore") then do
    let (b, act_kind) ← b.first_token_of_no_case [strL "keep", strL "ignore"]
    let b ← b.space
    let (b, act_target) ← b.first_token_of_no_case [strL "url", strL "title"]
    let b ← b.space
    match b.text.head? with
    | none => .err (b.expected (strL "a pattern"))
    | some c => do
      let (b, pat) ← b.read_between c c
      match rx pat with
      | some emsg =>
        .err (b.expected (strL "/" ++ pat ++ strL "/ to be a valid pattern: " ++ emsg))
      | none =>
        if act_kind = strL "keep" && act_target = strL "title" then
          .ok (b, .Filter .KeepTitle pat)
        else if act_kind = strL "keep" && act_target = strL "url" then
          .ok (b, .Filter .KeepUrl pat)
        else if act_kind = strL "ignore" && act_target = strL "title" then
          .ok (b, .Filter .IgnoreTitle pat)
        else if act_kind = strL "ignore" && act_target = strL "url" then
          .ok (b, .Filter .IgnoreUrl pat)
        else .panic
  else if b.starts_with_no_case (strL "open") then do
    let b ← b.token_no_case (strL "open")
    let b ← b.space
    let b ← b.token_no_case (strL "all")
    let b ← b.space_or_end
    return (b, .OpenAll)
  else if (b.text.head?.map Char.isDigit).getD false then do
    let (b, count) ← parse_number b
    let b := b.trim_start
    let b ← b.token_no_case (strL "new")
    let b ← b.space
    let (b, _) ← b.first_token_of_no_case [strL "comics", strL "comic"]
    return (b, .Comics count)
  else
    .err (.ExpectedMsg policyGrammarMsg b.row (some (b.col, b.col + b.text.length)))

/-- The `while` loop of `parse_policies`, with explicit fuel.  Each
iteration consumes at least the `@`, so `text.length + 1` fuel never runs
out; exhaustion is mapped to `panic` only to totalise the function. -/
def parse_policies_go (rx : List Char → Option (List Char)) :
    Nat → List UpdateSpec → Buffer → PResult (Buffer × List UpdateSpec)
  | 0, _, _ => .panic
  | fuel + 1, acc, b =>
    if b.starts_with (strL "@") then
      match parse_policy rx b with
      | .ok (b2, p) => parse_policies_go rx fuel (acc ++ [p]) b2.trim_start
      | .err e => .err e
      | .panic => .panic
    else .ok (b, acc)

/-- `parse_policies` from `parser.rs`. -/
def parse_policies (rx : List Char → Option (List Char)) (buf : Buffer) :
    PResult (Buffer × List UpdateSpec) :=
  let b := buf.trim_start
  parse_policies_go rx (b.text.length + 1) [] b

/-- `parse_name` from `parser.rs`. -/
def parse_name (buf : Buffer) : PResult (Buffer × List Char) :=
  (buf.trim_start).read_between '"' '"'

/-- `parse_url` from `parser.rs`. -/
def parse_url (buf : Buffer) : PResult (Buffer × List Char) :=
  (buf.trim_start).read_between '<' '>'

/-- `parse_line` from `parser.rs`: a quoted name, a `<...>` URL, then
policies; `update_policies` is the `HashSet` of the parsed clause list. -/
def parse_line (rx : List Char → Option (List Char)) (buf : Buffer) :
    PResult (Buffer × FeedInfo) := do
  let (b, name) ← parse_name buf
  let b := b.trim_start
  let (b, url) ← parse_url b
  let b := b.trim_start
  let (b, policies) ← parse_policies rx b
  return (b, ⟨name, url, policies.toFinset, none, none⟩)

/-- The line loop of `parse_config`: processes one line per step,
threading the sticky `root`/`command` state; `row` is the 1-based row of
the next line. -/
def configLoop (rx : List Char → Option (List Char)) :
    Option (List Char) → Option (List (List Char)) → Nat → List (List Char) →
    PResult (List FeedInfo)
  | _, _, _, [] => .ok []
  | root, cmd, row, line :: rest =>
    let buf := (Buffer.mk row 0 line).trim
    if buf.starts_with (strL "#") || buf.text.isEmpty then
      configLoop rx root cmd (row + 1) rest
    else if buf.starts_with (strL "root") then
      match buf.token_no_case (strL "root") with
      | .ok b =>
        if b.trim.text.isEmpty then configLoop rx none cmd (row + 1) rest
        else
          match b.space with
          | .ok b2 => configLoop rx (some b2.trim.text) cmd (row + 1) rest
          | .err e => .err e
          | .panic => .panic
      | .err e => .err e
      | .panic => .panic
    else if buf.starts_with (strL "command") then
      match buf.token_no_case (strL "command") with
      | .ok b =>
        if b.trim.text.isEmpty then configLoop rx root none (row + 1) rest
        else
          match parse_command b.text with
          | .ok cmd2 => configLoop rx root (some cmd2) (row + 1) rest
          | .err e => .err e
          | .panic => .panic
      | .err e => .err e
      | .panic => .panic
    else
      match parse_line rx buf with
      | .ok (_, fi) =>
        (configLoop rx root cmd (row + 1) rest).map
          (fun out => { fi with root := root, command := cmd } :: out)
      | .err e => .err e
      | .panic => .panic

/-- `parse_config` from `parser.rs`. -/
def parse_config (rx : List Char → Option (List Char)) (input : List Char) :
    PResult (List FeedInfo) :=
  configLoop rx none none 1 (rustLines input)

/-- The grammar-level error message of `parse_events`' final branch. -/
def eventsGrammarMsg : List Char :=
  strL "a feed event. One of:\n - \"<url>\"\n - \"read DATE\""

/-- The line loop of `parse_events`; `idx` is the 0-based index of the
next line.  Buffers are built with row `idx + 1`; note the final
grammar-error branch of the Rust source passes the raw 0-based `row`. -/
def eventsLoop (chrono : List Char → Bool) :
    Nat → List (List Char) → PResult (List FeedEvent)
  | _, [] => .ok []
  | idx, line :: rest =>
    let b := (Buffer.mk (idx + 1) 0 line).trim
    if b.text.isEmpty then eventsLoop chrono (idx + 1) rest
    else if b.starts_with_no_case (strL "read") then
      match (b.token_no_case (strL "read")).bind Buffer.space with
      | .ok b2 =>
        if chrono b2.text then
          (eventsLoop chrono (idx + 1) rest).map (fun out => .Read b2.text :: out)
        else .err (b2.expected (strL "a valid date"))
      | .err e => .err e
      | .panic => .panic
    else if b.starts_with (strL "<") then
      match b.read_between '<' '>' with
      | .ok (b2, url) =>
        match b2.space_or_end with
        | .ok _ => (eventsLoop chrono (idx + 1) rest).map (fun out => .ComicUrl url :: out)
        | .err e => .err e
        | .panic => .panic
      | .err e => .err e
      | .panic => .panic
    else .err (.ExpectedMsg eventsGrammarMsg idx none)

/-- `parse_events` from `parser.rs`. -/
def parse_events (chrono : List Char → Bool) (input : List Char) :
    PResult (List FeedEvent) :=
  eventsLoop chrono 0 (rustLines input)

/-- A regex oracle accepting every pattern (used to instantiate theorems
at concrete inputs whose patterns are plainly valid). -/
def rxAccept : List Char → Option (List Char) := fun _ => none

/-- A chrono oracle accepting every timestamp text. -/
def chronoAccept : List Char → Bool := fun _ => true

/-- A regex oracle rejecting every pattern with a fixed diagnostic (used
to instantiate theorems on the invalid-pattern path). -/
def rxRejectAll : List Char → Option (List Char) :=
  fun _ => some (strL "unclosed group")

/-! ## Theorems -/

/-- `startsWithL` holds of a list against itself followed by anything. -/
theorem startsWithL_self_append : ∀ (s t : List Char), startsWithL s (s ++ t) = true := by
  intro s
  induction s with
  | nil => intro t; rfl
  | cons c cs ih => intro t; simp [startsWithL, ih]

/-- `startsWithL` is reflexive. -/
theorem startsWithL_refl (s : List Char) : startsWithL s s = true := by
  have h := startsWithL_self_append s []
  rwa [List.append_nil] at h

/-- Anything beginning with `s` after some prefix contains `s`. -/
theorem containsL_of_startsWith {s u : List Char} (h : startsWithL s u = true) :
    ∀ pre, containsL s (pre ++ u) = true := by
  intro pre
  induction pre with
  | nil =>
    cases u with
    | nil => simpa [containsL] using h
    | cons b bs => simp [containsL, h]
  | cons p ps ih => simp [containsL, ih]

/-- Appending one whitespace character does not change `trimEndL`. -/
theorem trimEndL_append_ws {c : Char} (hc : c.isWhitespace = true) (ys : List Char) :
    trimEndL (ys ++ [c]) = trimEndL ys := by
  simp [trimEndL, hc]

/-- `trimEndL` steps over a non-whitespace head. -/
theorem trimEndL_cons_nonws {c : Char} (hc : c.isWhitespace = false) (t : List Char) :
    trimEndL (c :: t) = c :: trimEndL t := by
  simp only [trimEndL, List.reverse_cons, List.dropWhile_append]
  by_cases h : (t.reverse.dropWhile Char.isWhitespace).isEmpty
  · simp [h, List.dropWhile, hc, List.isEmpty_iff.mp h]
  · simp [h]

/-- A text without newlines splits into itself. -/
theorem splitNL_no_newline : ∀ (l : List Char), '\n' ∉ l → splitNL l = [l] := by
  intro l
  induction l with
  | nil => intro _; rfl
  | cons c t ih =>
    intro h
    have hc : ¬c = '\n' := fun hc => h (by simp [hc])
    have ht : '\n' ∉ t := fun hm => h (by simp [hm])
    simp [splitNL, hc, ih ht]

/-- A nonempty text without newlines is one Rust line. -/
theorem rustLines_single {l : List Char} (h : '\n' ∉ l) (hne : l ≠ []) :
    rustLines l = [stripCR l] := by
  simp [rustLines, splitNL_no_newline l h, hne]

/-- `stripCR` either leaves the line unchanged or removes one final CR. -/
theorem stripCR_cases (l : List Char) :
    stripCR l = l ∨ ∃ xs, l = xs ++ ['\r'] ∧ stripCR l = xs := by
  cases hr : l.reverse with
  | nil => left; simp [stripCR, hr]
  | cons c rest =>
    by_cases hc : c = '\r'
    · right
      refine ⟨rest.reverse, ?_, ?_⟩
      · rw [← List.reverse_reverse l, hr, hc]; simp
      · subst hc; simp [stripCR, hr]
    · left
      cases c; simp_all [stripCR]

/-- The `takeWhile`/`dropWhile` pieces of a line ending in a lone CR agree
with those of the line without it, unless the line is all whitespace. -/
theorem configLoop_stripCR (rx : List Char → Option (List Char))
    (r : Option (List Char)) (c : Option (List (List Char))) (row : Nat)
    (l : List Char) (ls : List (List Char)) :
    configLoop rx r c row (stripCR l :: ls) = configLoop rx r c row (l :: ls) := by
  rcases stripCR_cases l with h | ⟨xs, hl, hs⟩
  · rw [h]
  · rw [hs, hl]
    by_cases hws : xs.dropWhile Char.isWhitespace = []
    · have h1 : (Buffer.mk row 0 xs).trim.text = [] := by
        simp [Buffer.trim, Buffer.trim_start, hws, trimEndL]
      have h2 : (Buffer.mk row 0 (xs ++ ['\r'])).trim.text = [] := by
        simp +decide [Buffer.trim, Buffer.trim_start, List.dropWhile_append,
          hws, trimEndL, List.dropWhile]
      simp only [configLoop]
      simp [h1, h2, Buffer.starts_with, startsWithL]
    · have hsum := congrArg List.length (List.takeWhile_append_dropWhile Char.isWhitespace xs)
      rw [List.length_append] at hsum
      have hlen : ¬(xs.takeWhile Char.isWhitespace).length = xs.length := by
        intro hl2
        have h0 : (xs.dropWhile Char.isWhitespace).length = 0 := by omega
        exact hws (List.length_eq_zero.mp h0)
      have hbuf : (Buffer.mk row 0 (xs ++ ['\r'])).trim = (Buffer.mk row 0 xs).trim := by
        simp only [Buffer.trim, Buffer.trim_start]
        rw [List.takeWhile_append, if_neg hlen, List.dropWhile_append]
        rw [if_neg (by simpa using hws)]
        rw [trimEndL_append_ws (by decide)]
      simp only [configLoop]
      rw [hbuf]

/-- `trimEndL` steps over a head when the tail keeps a non-whitespace
character. -/
theorem trimEndL_cons_of_ne {t : List Char} (h : trimEndL t ≠ []) (x : Char) :
    trimEndL (x :: t) = x :: trimEndL t := by
  have h' : ¬(t.reverse.dropWhile Char.isWhitespace).isEmpty := by
    simpa [trimEndL, List.isEmpty_iff] using h
  simp [trimEndL, List.dropWhile_append, h']

/-- `trimEndL` never reaches past an interior non-whitespace character. -/
theorem trimEndL_append_cons {c : Char} (hc : c.isWhitespace = false)
    (ys : List Char) : ∀ xs, trimEndL (xs ++ c :: ys) = xs ++ c :: trimEndL ys := by
  intro xs
  induction xs with
  | nil => simpa using trimEndL_cons_nonws hc ys
  | cons x t ih =>
    have hne : trimEndL (t ++ c :: ys) ≠ [] := by simp [ih]
    simp [trimEndL_cons_of_ne hne, ih]

/-- The head surviving an end-trim was the original head. -/
theorem trimEndL_head? {l : List Char} {x : Char}
    (h : (trimEndL l).head? = some x) : l.head? = some x := by
  cases l with
  | nil => simp [trimEndL] at h
  | cons c t =>
    by_cases hne : trimEndL t = []
    · have h' : (t.reverse.dropWhile Char.isWhitespace).isEmpty := by
        simpa [trimEndL, List.isEmpty_iff] using hne
      by_cases hc : c.isWhitespace
      · exfalso
        have hz : trimEndL (c :: t) = [] := by
          simp [trimEndL, List.dropWhile_append, h', List.dropWhile, hc]
        rw [hz] at h; cases h
      · have hz : trimEndL (c :: t) = [c] := by
          simp [trimEndL, List.dropWhile_append, h', List.dropWhile, hc]
        rw [hz] at h
        simpa using h
    · rw [trimEndL_cons_of_ne hne] at h
      simpa using h

/-- Leading and trailing whitespace removal commute. -/
theorem trimStartL_trimEndL_comm (l : List Char) :
    trimStartL (trimEndL l) = trimEndL (trimStartL l) := by
  induction l with
  | nil => rfl
  | cons c t ih =>
    by_cases hc : c.isWhitespace
    · by_cases hne : trimEndL t = []
      · have h' : (t.reverse.dropWhile Char.isWhitespace).isEmpty := by
          simpa [trimEndL, List.isEmpty_iff] using hne
        have h1 : trimEndL (c :: t) = [] := by
          simp [trimEndL, List.dropWhile_append, h', List.dropWhile, hc]
        rw [h1]
        have h2 : trimStartL (c :: t) = trimStartL t := by
          simp [trimStartL, List.dropWhile_cons, hc]
        rw [h2, ← ih, hne]
      · rw [trimEndL_cons_of_ne hne]
        have h2 : trimStartL (c :: trimEndL t) = trimStartL (trimEndL t) := by
          simp [trimStartL, List.dropWhile_cons, hc]
        have h3 : trimStartL (c :: t) = trimStartL t := by
          simp [trimStartL, List.dropWhile_cons, hc]
        rw [h2, h3, ih]
    · have h2 : trimStartL (c :: t) = c :: t := by
        simp [trimStartL, List.dropWhile_cons, hc]
      have h3 : trimStartL (c :: trimEndL t) = c :: trimEndL t := by
        simp [trimStartL, List.dropWhile_cons, hc]
      by_cases hne : trimEndL t = []
      · have h' : (t.reverse.dropWhile Char.isWhitespace).isEmpty := by
          simpa [trimEndL, List.isEmpty_iff] using hne
        have h1 : trimEndL (c :: t) = [c] := by
          simp [trimEndL, List.dropWhile_append, h', List.dropWhile, hc]
        rw [h1, h2, h1]
        simp [trimStartL, List.dropWhile_cons, hc]
      · rw [trimEndL_cons_of_ne hne, h3, h2, trimEndL_cons_of_ne hne]

/-- A one-character literal is not a prefix of a text whose head differs. -/
theorem startsWithL_single_ne {c : Char} {l : List Char}
    (h : ∀ x, l.head? = some x → x ≠ c) : startsWithL [c] l = false := by
  cases l with
  | nil => rfl
  | cons x t =>
    have hne : ¬c = x := fun hh => (h x rfl) hh.symm
    simp [startsWithL, hne]

/-- Scanning for `d` through `pat ++ d :: rest` with `d ∉ pat` finds the
explicit occurrence. -/
theorem scanTo_append (d : Char) (rest : List Char) :
    ∀ (pat : List Char), d ∉ pat → scanTo d (pat ++ d :: rest) = some (pat, rest) := by
  intro pat
  induction pat with
  | nil => intro _; simp [scanTo]
  | cons c cs ih =>
    intro h
    have hcd : ¬c = d := fun hc => h (by simp [hc])
    have htl : d ∉ cs := fun hm => h (by simp [hm])
    simp [scanTo, hcd, ih htl]

/-- Two case-insensitive prefixes of one text are case-insensitive
prefixes of one another (the shorter of the longer). -/
theorem startsWithNoCaseL_compat : ∀ {t a b : List Char},
    startsWithNoCaseL a t = true → startsWithNoCaseL b t = true →
    startsWithNoCaseL a b = true ∨ startsWithNoCaseL b a = true := by
  intro t
  induction t with
  | nil =>
    intro a b ha hb
    cases a with
    | nil => exact Or.inl rfl
    | cons x xs => exact absurd ha (by simp [startsWithNoCaseL])
  | cons c ts ih =>
    intro a b ha hb
    cases a with
    | nil => exact Or.inl rfl
    | cons x xs =>
      cases b with
      | nil => exact Or.inr rfl
      | cons y ys =>
        simp only [startsWithNoCaseL, Bool.and_eq_true, decide_eq_true_eq] at ha hb ⊢
        rcases ih ha.2 hb.2 with h | h
        · exact Or.inl ⟨ha.1.trans hb.1.symm, h⟩
        · exact Or.inr ⟨hb.1.trans ha.1.symm, h⟩

/-- If `b` is a case-insensitive prefix of `t` and `a`, `b` are mutually
incompatible, then `a` is not a case-insensitive prefix of `t`. -/
theorem startsWithNoCaseL_exclusive {t a b : List Char}
    (hb : startsWithNoCaseL b t = true)
    (h1 : startsWithNoCaseL a b = false) (h2 : startsWithNoCaseL b a = false) :
    startsWithNoCaseL a t = false := by
  cases ha : startsWithNoCaseL a t with
  | false => rfl
  | true =>
    rcases startsWithNoCaseL_compat ha hb with h | h
    · rw [h] at h1; cases h1
    · rw [h] at h2; cases h2

/-- C3 (amended): the `on` clause (like `every`, `overlap` and `open all`)
must be terminated by whitespace or end of input â `@ on saturday`
followed immediately by a non-whitespace character is an error; but the
leading-digit clause `@ <n> new comic|comics` has no such check: whatever
characters follow `comics`, the clause parses as `Comics n` and leaves
them unconsumed. -/
theorem parse_policy_termination_mixed
    (rx : List Char → Option (List Char)) (row col : Nat) (c : Char) (cs : List Char)
    (hc : c.isWhitespace = false) :
    (∃ e, parse_policy rx ⟨row, col, strL "@ on saturday" ++ c :: cs⟩ = .err e) ∧
    (∀ s : List Char, parse_policy rx ⟨row, col, strL "@ 3 new comics" ++ s⟩ =
      .ok (⟨row, col + 14, s⟩, .Comics 3)) := by
  constructor
  · have e1 : strL "@ on saturday" ++ c :: cs =
        '@' :: ' ' :: 'o' :: 'n' :: ' ' :: 's' :: 'a' :: 't' :: 'u' :: 'r' ::
          'd' :: 'a' :: 'y' :: c :: cs := rfl
    rw [e1]
    refine ⟨.ExpectedMsg (strL "whitespace or end of input") row
      (some (col + 13, col + 13)), ?_⟩
    simp +decide [parse_policy, Buffer.token, Buffer.token_no_case, Buffer.space,
      Buffer.space_or_end, Buffer.trim_start, Buffer.advance, Buffer.starts_with,
      Buffer.starts_with_no_case, Buffer.first_token_of_no_case, Buffer.expected,
      startsWithL, startsWithNoCaseL, parse_number, parse_weekday, strL,
      Bind.bind, PResult.bind, Pure.pure, natOfDigits, usizeMax, hc]
  · intro s
    have e2 : strL "@ 3 new comics" ++ s =
        '@' :: ' ' :: '3' :: ' ' :: 'n' :: 'e' :: 'w' :: ' ' :: 'c' :: 'o' ::
          'm' :: 'i' :: 'c' :: 's' :: s := rfl
    rw [e2]
    simp +decide [parse_policy, Buffer.token, Buffer.token_no_case, Buffer.space,
      Buffer.space_or_end, Buffer.trim_start, Buffer.advance, Buffer.starts_with,
      Buffer.starts_with_no_case, Buffer.first_token_of_no_case, Buffer.expected,
      startsWithL, startsWithNoCaseL, parse_number, parse_weekday, strL,
      Bind.bind, PResult.bind, Pure.pure, natOfDigits, usizeMax, List.findIdx?]

/-- C3 witness: `@ on saturdayX` is rejected while `@ 3 new comics`
followed by anything (also nothing) yields `Comics 3`. -/
theorem parse_policy_termination_mixed_witness :
    (∃ e, parse_policy rxAccept ⟨1, 0, strL "@ on saturday" ++ 'X' :: []⟩ = .err e) ∧
    (∀ s : List Char, parse_policy rxAccept ⟨1, 0, strL "@ 3 new comics" ++ s⟩ =
      .ok (⟨1, 0 + 14, s⟩, .Comics 3)) :=
  parse_policy_termination_mixed rxAccept 1 0 'X' [] (by decide)

theorem trimEndL_eq_self {p : List Char}
    (h : ∀ x, p.getLast? = some x → x.isWhitespace = false) : trimEndL p = p := by
  cases hr : p.reverse with
  | nil =>
    have : p = [] := by simpa using congrArg List.reverse hr
    simp [this, trimEndL]
  | cons x t =>
    have hx : p.getLast? = some x := by
      rw [← List.head?_reverse, hr]; rfl
    have hws := h x hx
    have h2 : trimEndL p = (x :: t).reverse := by
      simp [trimEndL, hr, List.dropWhile_cons, hws]
    rw [h2, ← hr, List.reverse_reverse]

theorem configLoop_root_set (rx : List Char → Option (List Char))
    (r : Option (List Char)) (c : Option (List (List Char))) (row : Nat)
    (ph : Char) (pt : List Char) (ls : List (List Char))
    (hph : ph.isWhitespace = false)
    (hlast : ∀ x, (ph :: pt).getLast? = some x → x.isWhitespace = false) :
    configLoop rx r c row ((strL "root " ++ ph :: pt) :: ls) =
      configLoop rx (some (ph :: pt)) c (row + 1) ls := by
  have e1 : strL "root " ++ ph :: pt = 'r' :: 'o' :: 'o' :: 't' :: ' ' :: ph :: pt := rfl
  rw [e1]
  have hself : trimEndL (ph :: pt) = ph :: pt := trimEndL_eq_self hlast
  have hne : trimEndL (ph :: pt) ≠ [] := by rw [hself]; simp
  have htr : trimEndL ('r' :: 'o' :: 'o' :: 't' :: ' ' :: ph :: pt) =
      'r' :: 'o' :: 'o' :: 't' :: ' ' :: ph :: pt := by
    rw [trimEndL_cons_of_ne (by rw [trimEndL_cons_of_ne (by
          rw [trimEndL_cons_of_ne (by rw [trimEndL_cons_of_ne (by
            rw [trimEndL_cons_of_ne hne]; simp)]; simp)]; simp)]; simp)]
    rw [trimEndL_cons_of_ne (by rw [trimEndL_cons_of_ne (by
          rw [trimEndL_cons_of_ne (by rw [trimEndL_cons_of_ne hne]; simp)]; simp)]; simp)]
    rw [trimEndL_cons_of_ne (by rw [trimEndL_cons_of_ne (by
          rw [trimEndL_cons_of_ne hne]; simp)]; simp)]
    rw [trimEndL_cons_of_ne (by rw [trimEndL_cons_of_ne hne]; simp)]
    rw [trimEndL_cons_of_ne hne, hself]
  have hlen : (strL "root").length = 4 := rfl
  simp +decide [configLoop, Buffer.trim, Buffer.trim_start, Buffer.starts_with,
    Buffer.starts_with_no_case, Buffer.token_no_case, Buffer.advance, Buffer.space,
    startsWithL, startsWithNoCaseL, htr, hself, hph, hlen,
    List.dropWhile_cons, List.takeWhile_cons, Bind.bind, PResult.bind]

theorem configLoop_root_reset (rx : List Char → Option (List Char))
    (r : Option (List Char)) (c : Option (List (List Char))) (row : Nat)
    (ls : List (List Char)) :
    configLoop rx r c row (strL "root" :: ls) = configLoop rx none c (row + 1) ls := by
  have e1 : strL "root" = 'r' :: 'o' :: 'o' :: 't' :: [] := rfl
  rw [e1]
  have hlen : (strL "root").length = 4 := rfl
  simp +decide [configLoop, Buffer.trim, Buffer.trim_start, Buffer.starts_with,
    Buffer.starts_with_no_case, Buffer.token_no_case, Buffer.advance, Buffer.space,
    startsWithL, startsWithNoCaseL, hlen, trimEndL,
    List.dropWhile_cons, List.takeWhile_cons, Bind.bind, PResult.bind]

theorem configLoop_command_set (rx : List Char → Option (List Char))
    (r : Option (List Char)) (c : Option (List (List Char))) (row : Nat)
    (ah : Char) (at' : List Char) (cmd : List (List Char)) (ls : List (List Char))
    (hah : ah.isWhitespace = false)
    (hlast : ∀ x, (ah :: at').getLast? = some x → x.isWhitespace = false)
    (hcmd : parse_command (' ' :: ah :: at') = .ok cmd) :
    configLoop rx r c row ((strL "command " ++ ah :: at') :: ls) =
      configLoop rx r (some cmd) (row + 1) ls := by
  have e1 : strL "command " ++ ah :: at' =
      'c' :: 'o' :: 'm' :: 'm' :: 'a' :: 'n' :: 'd' :: ' ' :: ah :: at' := rfl
  rw [e1]
  have hself : trimEndL (ah :: at') = ah :: at' := trimEndL_eq_self hlast
  have hne : trimEndL (ah :: at') ≠ [] := by rw [hself]; simp
  have htr : trimEndL ('c' :: 'o' :: 'm' :: 'm' :: 'a' :: 'n' :: 'd' :: ' ' :: ah :: at') =
      'c' :: 'o' :: 'm' :: 'm' :: 'a' :: 'n' :: 'd' :: ' ' :: ah :: at' := by
    rw [show ('c' :: 'o' :: 'm' :: 'm' :: 'a' :: 'n' :: 'd' :: ' ' :: ah :: at' : List Char) =
      ['c', 'o', 'm', 'm', 'a', 'n', 'd'] ++ ' ' :: ah :: at' from rfl]
    rw [show (' ' :: ah :: at' : List Char) = [' '] ++ ah :: at' from rfl]
    have hlast2 : ∀ x, at'.getLast? = some x → x.isWhitespace = false := by
      intro x hx
      refine hlast x ?_
      cases at' with
      | nil => cases hx
      | cons y ys => rw [List.getLast?_cons_cons]; exact hx
    rw [← List.append_assoc, trimEndL_append_cons hah, trimEndL_eq_self hlast2]
  have hlen : (strL "command").length = 7 := rfl
  simp +decide [configLoop, Buffer.trim, Buffer.trim_start, Buffer.starts_with,
    Buffer.starts_with_no_case, Buffer.token_no_case, Buffer.advance,
    startsWithL, startsWithNoCaseL, htr, hself, hah, hlen, hcmd,
    List.dropWhile_cons, List.takeWhile_cons, Bind.bind, PResult.bind]

theorem configLoop_command_reset (rx : List Char → Option (List Char))
    (r : Option (List Char)) (c : Option (List (List Char))) (row : Nat)
    (ls : List (List Char)) :
    configLoop rx r c row (strL "command" :: ls) = configLoop rx r none (row + 1) ls := by
  have e1 : strL "command" = 'c' :: 'o' :: 'm' :: 'm' :: 'a' :: 'n' :: 'd' :: [] := rfl
  rw [e1]
  have hlen : (strL "command").length = 7 := rfl
  simp +decide [configLoop, Buffer.trim, Buffer.trim_start, Buffer.starts_with,
    Buffer.starts_with_no_case, Buffer.token_no_case, Buffer.advance, Buffer.space,
    startsWithL, startsWithNoCaseL, hlen, trimEndL,
    List.dropWhile_cons, List.takeWhile_cons, Bind.bind, PResult.bind]

theorem configLoop_feed_step (rx : List Char → Option (List Char))
    (r : Option (List Char)) (c : Option (List (List Char))) (row : Nat)
    (line : List Char) (ls : List (List Char)) (b : Buffer) (fi : FeedInfo)
    (h1 : (Buffer.mk row 0 line).trim.starts_with (strL "#") = false)
    (h2 : (Buffer.mk row 0 line).trim.text ≠ [])
    (h3 : (Buffer.mk row 0 line).trim.starts_with (strL "root") = false)
    (h4 : (Buffer.mk row 0 line).trim.starts_with (strL "command") = false)
    (hp : parse_line rx ((Buffer.mk row 0 line).trim) = .ok (b, fi)) :
    configLoop rx r c row (line :: ls) =
      PResult.map (fun out => { fi with root := r, command := c } :: out)
        (configLoop rx r c (row + 1) ls) := by
  simp only [configLoop]
  rw [if_neg, if_neg (by simp [h3]), if_neg (by simp [h4]), hp]
  simp [h1, h2, List.isEmpty_iff]

theorem configLoop_append_ok (rx : List Char → Option (List Char)) :
    ∀ (ls : List (List Char)) (r : Option (List Char)) (c : Option (List (List Char)))
      (row : Nat) (ext : List (List Char)) (out out2 : List FeedInfo),
      configLoop rx r c row ls = .ok out →
      configLoop rx r c row (ls ++ ext) = .ok out2 → out <+: out2 := by
  intro ls
  induction ls with
  | nil =>
    intro r c row ext out out2 h1 h2
    have : out = [] := by
      simp only [configLoop] at h1
      injection h1 with hh
      exact hh.symm
    simp [this]
  | cons line t ih =>
    intro r c row ext out out2 h1 h2
    rw [List.cons_append] at h2
    simp only [configLoop] at h1 h2
    by_cases hc1 : ((Buffer.mk row 0 line).trim.starts_with (strL "#") ||
        (Buffer.mk row 0 line).trim.text.isEmpty) = true
    · rw [if_pos hc1] at h1 h2
      exact ih _ _ _ _ _ _ h1 h2
    · rw [if_neg hc1] at h1 h2
      by_cases hc2 : (Buffer.mk row 0 line).trim.starts_with (strL "root") = true
      · rw [if_pos hc2] at h1 h2
        cases htok : (Buffer.mk row 0 line).trim.token_no_case (strL "root") with
        | ok b =>
          simp only [htok] at h1 h2
          by_cases hemp : b.trim.text.isEmpty = true
          · rw [if_pos hemp] at h1 h2
            exact ih _ _ _ _ _ _ h1 h2
          · rw [if_neg hemp] at h1 h2
            cases hsp : b.space with
            | ok b2 =>
              simp only [hsp] at h1 h2
              exact ih _ _ _ _ _ _ h1 h2
            | err e => simp only [hsp] at h1 h2; exact PResult.noConfusion h1
            | panic => simp only [hsp] at h1 h2; exact PResult.noConfusion h1
        | err e => simp only [htok] at h1 h2; exact PResult.noConfusion h1
        | panic => simp only [htok] at h1 h2; exact PResult.noConfusion h1
      · rw [if_neg hc2] at h1 h2
        by_cases hc3 : (Buffer.mk row 0 line).trim.starts_with (strL "command") = true
        · rw [if_pos hc3] at h1 h2
          cases htok : (Buffer.mk row 0 line).trim.token_no_case (strL "command") with
          | ok b =>
            simp only [htok] at h1 h2
            by_cases hemp : b.trim.text.isEmpty = true
            · rw [if_pos hemp] at h1 h2
              exact ih _ _ _ _ _ _ h1 h2
            · rw [if_neg hemp] at h1 h2
              cases hpc : parse_command b.text with
              | ok cmd2 =>
                simp only [hpc] at h1 h2
                exact ih _ _ _ _ _ _ h1 h2
              | err e => simp only [hpc] at h1 h2; exact PResult.noConfusion h1
              | panic => simp only [hpc] at h1 h2; exact PResult.noConfusion h1
          | err e => simp only [htok] at h1 h2; exact PResult.noConfusion h1
          | panic => simp only [htok] at h1 h2; exact PResult.noConfusion h1
        · rw [if_neg hc3] at h1 h2
          cases hpl : parse_line rx ((Buffer.mk row 0 line).trim) with
          | ok v =>
            obtain ⟨b, fi⟩ := v
            simp only [hpl] at h1 h2
            cases hrec1 : configLoop rx r c (row + 1) t with
            | ok out' =>
              rw [hrec1] at h1
              cases hrec2 : configLoop rx r c (row + 1) (t ++ ext) with
              | ok out2' =>
                rw [hrec2] at h2
                simp only [PResult.map] at h1 h2
                injection h1 with hh1
                injection h2 with hh2
                obtain ⟨tl, htl⟩ := ih _ _ _ _ _ _ hrec1 hrec2
                refine ⟨tl, ?_⟩
                rw [← hh1, ← hh2, List.cons_append, htl]
              | err e => rw [hrec2] at h2; exact PResult.noConfusion h2
              | panic => rw [hrec2] at h2; exact PResult.noConfusion h2
            | err e =>
              rw [hrec1] at h1
              exact PResult.noConfusion h1
            | panic =>
              rw [hrec1] at h1
              exact PResult.noConfusion h1
          | err e => simp only [hpl] at h1 h2; exact PResult.noConfusion h1
          | panic => simp only [hpl] at h1 h2; exact PResult.noConfusion h1

/-- C6: the sticky-directive behaviour of `parse_config`'s line loop:
a `root <path>` line (path trimmed, nonempty) sets the current root for
every following line and a bare `root` line resets it; the same holds for
`command` (with `parse_command`'s tokenization of the arguments); every
feed line's `FeedInfo` is stamped with the root/command values current at
that line; and appending later lines never alters the entries already
produced by earlier lines (the earlier output is a prefix). -/
theorem config_directive_stickiness (rx : List Char → Option (List Char)) :
    (∀ r c row ph pt ls, ph.isWhitespace = false →
      (∀ x, (ph :: pt).getLast? = some x → x.isWhitespace = false) →
      configLoop rx r c row ((strL "root " ++ ph :: pt) :: ls) =
        configLoop rx (some (ph :: pt)) c (row + 1) ls) ∧
    (∀ r c row ls, configLoop rx r c row (strL "root" :: ls) =
      configLoop rx none c (row + 1) ls) ∧
    (∀ r c row ah at' cmd ls, ah.isWhitespace = false →
      (∀ x, (ah :: at').getLast? = some x → x.isWhitespace = false) →
      parse_command (' ' :: ah :: at') = .ok cmd →
      configLoop rx r c row ((strL "command " ++ ah :: at') :: ls) =
        configLoop rx r (some cmd) (row + 1) ls) ∧
    (∀ r c row ls, configLoop rx r c row (strL "command" :: ls) =
      configLoop rx r none (row + 1) ls) ∧
    (∀ r c row line ls b fi,
      (Buffer.mk row 0 line).trim.starts_with (strL "#") = false →
      (Buffer.mk row 0 line).trim.text ≠ [] →
      (Buffer.mk row 0 line).trim.starts_with (strL "root") = false →
      (Buffer.mk row 0 line).trim.starts_with (strL "command") = false →
      parse_line rx ((Buffer.mk row 0 line).trim) = .ok (b, fi) →
      configLoop rx r c row (line :: ls) =
        PResult.map (fun out => { fi with root := r, command := c } :: out)
          (configLoop rx r c (row + 1) ls)) ∧
    (∀ ls r c row ext out out2,
      configLoop rx r c row ls = .ok out →
      configLoop rx r c row (ls ++ ext) = .ok out2 → out <+: out2) :=
  ⟨fun r c row ph pt ls hph hlast => configLoop_root_set rx r c row ph pt ls hph hlast,
   fun r c row ls => configLoop_root_reset rx r c row ls,
   fun r c row ah at' cmd ls hah hlast hcmd =>
     configLoop_command_set rx r c row ah at' cmd ls hah hlast hcmd,
   fun r c row ls => configLoop_command_reset rx r c row ls,
   fun r c row line ls b fi h1 h2 h3 h4 hp =>
     configLoop_feed_step rx r c row line ls b fi h1 h2 h3 h4 hp,
   fun ls r c row ext out out2 h1 h2 =>
     configLoop_append_ok rx ls r c row ext out out2 h1 h2⟩

/-- C6 witness: after the line `root /a/b`, the feed line `"W" <u>`
produces a `FeedInfo` carrying `root = /a/b`. -/
theorem config_directive_stickiness_witness :
    configLoop rxAccept none none 1 [strL "root /a/b", strL "\"W\" <u>"] =
      .ok [⟨strL "W", strL "u", ∅, some (strL "/a/b"), none⟩] := by
  rw [show strL "root /a/b" = strL "root " ++ '/' :: strL "a/b" from rfl]
  rw [(config_directive_stickiness rxAccept).1 none none 1 '/' (strL "a/b")
    [strL "\"W\" <u>"] (by decide) (by decide)]
  decide

/-- C2 (amended): a line that begins with a quoted name and a
`<url>`-delimited URL parses successfully whatever non-`@`-starting text
is left after the URL (or after the last policy clause): `parse_config`
discards the unconsumed remainder of `parse_line` instead of failing on
it, and the produced `FeedInfo` records only the recognized constructs. -/
theorem parse_config_trailing_text_ignored
    (rx : List Char → Option (List Char)) (name url rest : List Char)
    (hname : '"' ∉ name) (hurl : '>' ∉ url)
    (hline : '\n' ∉ ('"' :: (name ++ ('"' :: ' ' :: '<' :: (url ++ ('>' :: rest))))))
    (hrest : ∀ x, (trimStartL rest).head? = some x → x ≠ '@') :
    parse_config rx ('"' :: (name ++ ('"' :: ' ' :: '<' :: (url ++ ('>' :: rest))))) =
      .ok [⟨name, url, ∅, none, none⟩] := by
  unfold parse_config
  rw [rustLines_single hline (by simp), configLoop_stripCR]
  have htr : trimEndL ('"' :: (name ++ ('"' :: ' ' :: '<' :: (url ++ ('>' :: rest))))) =
      '"' :: (name ++ ('"' :: ' ' :: '<' :: (url ++ ('>' :: trimEndL rest)))) := by
    have h1 := trimEndL_append_cons (c := '>') (by decide) rest
      ('"' :: name ++ '"' :: ' ' :: '<' :: url)
    simpa [List.append_assoc] using h1
  have hrest' : ∀ x, (trimStartL (trimEndL rest)).head? = some x → x ≠ '@' := by
    intro x hx
    rw [trimStartL_trimEndL_comm] at hx
    exact hrest x (trimEndL_head? hx)
  have hsw : startsWithL ['@'] (trimStartL (trimEndL rest)) = false :=
    startsWithL_single_ne hrest'
  have hat : strL "@" = ['@'] := rfl
  have hsw2 : startsWithL ['@']
      (List.dropWhile Char.isWhitespace (trimEndL rest)) = false := hsw
  simp +decide [configLoop, Buffer.trim, Buffer.trim_start, Buffer.starts_with,
    startsWithL, htr, parse_line, parse_name, parse_url, parse_policies,
    parse_policies_go, Buffer.read_between, scanTo_append, hname, hurl, hat,
    trimStartL, List.dropWhile_idempotent, hsw2,
    Bind.bind, PResult.bind, Pure.pure, PResult.map,
    List.dropWhile_cons, List.takeWhile_cons]

/-- C2 witness: `"A" <http://x> junk` parses to one FeedInfo with empty
policies, the trailing `junk` being ignored. -/
theorem parse_config_trailing_text_ignored_witness :
    parse_config rxAccept
        ('"' :: (strL "A" ++ ('"' :: ' ' :: '<' :: (strL "http://x" ++ ('>' :: strL " junk"))))) =
      .ok [⟨strL "A", strL "http://x", ∅, none, none⟩] :=
  parse_config_trailing_text_ignored rxAccept (strL "A") (strL "http://x") (strL " junk")
    (by decide) (by decide) (by decide)
    (by intro x hx; simp +decide [trimStartL, List.dropWhile] at hx; subst hx; decide)

/-- C10: `parse_config` recognizes the `root` and `command` directives
only when the keyword appears in exact lowercase: a single line beginning
`Root` or `COMMAND` (any text, no newline, after it) is handed to the
feed-line parser instead and fails at the quoted name, while the same
lines in lowercase are directives and produce no feed (and no error). -/
theorem config_directive_lowercase_only (rx : List Char → Option (List Char)) :
    (∀ rest : List Char, '\n' ∉ rest →
      parse_config rx (strL "Root" ++ rest) = .err (.Expected '"' 1 (some (0, 0)))) ∧
    (∀ rest : List Char, '\n' ∉ rest →
      parse_config rx (strL "COMMAND" ++ rest) = .err (.Expected '"' 1 (some (0, 0)))) ∧
    parse_config rx (strL "root /a/b") = .ok [] ∧
    parse_config rx (strL "command /bin/true") = .ok [] := by
  refine ⟨?_, ?_, ?_, ?_⟩
  · intro rest hrest
    unfold parse_config
    rw [rustLines_single (by simp +decide [hrest]) (by simp [strL]), configLoop_stripCR]
    have e1 : strL "Root" ++ rest = 'R' :: 'o' :: 'o' :: 't' :: rest := rfl
    rw [e1]
    simp +decide [configLoop, Buffer.trim, Buffer.trim_start, Buffer.starts_with,
      startsWithL, trimEndL_cons_nonws, parse_line, parse_name, Buffer.read_between,
      Bind.bind, PResult.bind, List.dropWhile, List.takeWhile]
  · intro rest hrest
    unfold parse_config
    rw [rustLines_single (by simp +decide [hrest]) (by simp [strL]), configLoop_stripCR]
    have e1 : strL "COMMAND" ++ rest = 'C' :: 'O' :: 'M' :: 'M' :: 'A' :: 'N' :: 'D' :: rest := rfl
    rw [e1]
    simp +decide [configLoop, Buffer.trim, Buffer.trim_start, Buffer.starts_with,
      startsWithL, trimEndL_cons_nonws, parse_line, parse_name, Buffer.read_between,
      Bind.bind, PResult.bind, List.dropWhile, List.takeWhile]
  · simp +decide [parse_config, rustLines, splitNL, stripCR, configLoop, Buffer.trim,
      Buffer.trim_start, Buffer.starts_with, Buffer.token_no_case,
      Buffer.starts_with_no_case, Buffer.advance, Buffer.space,
      startsWithL, startsWithNoCaseL, trimEndL, Bind.bind, PResult.bind,
      List.dropWhile, List.takeWhile]
  · simp +decide [parse_config, rustLines, splitNL, stripCR, configLoop, Buffer.trim,
      Buffer.trim_start, Buffer.starts_with, Buffer.token_no_case,
      Buffer.starts_with_no_case, Buffer.advance, Buffer.space,
      startsWithL, startsWithNoCaseL, trimEndL, Bind.bind, PResult.bind,
      parse_command, parse_command_go, parse_command_part, Buffer.peek,
      Buffer.read_between, List.dropWhile, List.takeWhile, List.findIdx?]

/-- C10 witness: `Root /a/b` is not a directive — it fails as a feed line
expecting a quoted name — while `root /a/b` is a directive line. -/
theorem config_directive_lowercase_only_witness :
    parse_config rxAccept (strL "Root" ++ strL " /a/b") =
      .err (.Expected '"' 1 (some (0, 0))) ∧
    parse_config rxAccept (strL "root /a/b") = .ok [] :=
  ⟨(config_directive_lowercase_only rxAccept).1 (strL " /a/b") (by decide),
   (config_directive_lowercase_only rxAccept).2.2.1⟩

/-- C7: a `keep`/`ignore` filter clause validates its delimited pattern
through the regex engine (modelled by the oracle `rx`) during parsing: a
valid pattern yields `Filter kind pat` with the pattern stored verbatim;
an invalid one fails right there with a message that contains the pattern
and the engine's diagnostic. -/
theorem parse_policy_filter_validation
    (rx : List Char → Option (List Char)) (row col : Nat) (ft : FilterType)
    (d : Char) (pat rest : List Char)
    (hd : d.isWhitespace = false) (hdp : d ∉ pat) :
    (rx pat = none →
      parse_policy rx ⟨row, col,
          strL "@ " ++ filterKindStr ft ++ ' ' :: filterTargetStr ft ++ ' ' ::
            d :: (pat ++ d :: rest)⟩ =
        .ok (⟨row,
          col + 6 + (filterKindStr ft).length + (filterTargetStr ft).length + pat.length,
          rest⟩, .Filter ft pat)) ∧
    (∀ emsg, rx pat = some emsg →
      parse_policy rx ⟨row, col,
          strL "@ " ++ filterKindStr ft ++ ' ' :: filterTargetStr ft ++ ' ' ::
            d :: (pat ++ d :: rest)⟩ =
        .err (.ExpectedMsg (strL "/" ++ pat ++ strL "/ to be a valid pattern: " ++ emsg) row
          (some
            (col + 6 + (filterKindStr ft).length + (filterTargetStr ft).length + pat.length,
             col + 6 + (filterKindStr ft).length + (filterTargetStr ft).length + pat.length))) ∧
      containsL pat (strL "/" ++ pat ++ strL "/ to be a valid pattern: " ++ emsg) = true ∧
      containsL emsg (strL "/" ++ pat ++ strL "/ to be a valid pattern: " ++ emsg) = true) := by
  constructor
  · intro hrx
    cases ft with
    | KeepTitle =>
      have e1 : strL "@ " ++ filterKindStr FilterType.KeepTitle ++ ' ' ::
          filterTargetStr FilterType.KeepTitle ++ ' ' :: d :: (pat ++ d :: rest) =
          '@' :: ' ' :: 'k' :: 'e' :: 'e' :: 'p' :: ' ' :: 't' :: 'i' :: 't' :: 'l' :: 'e' ::
            ' ' :: d :: (pat ++ d :: rest) := rfl
      rw [e1]
      simp +decide [parse_policy, Buffer.token, Buffer.token_no_case, Buffer.space,
        Buffer.space_or_end, Buffer.trim_start, Buffer.advance, Buffer.starts_with,
        Buffer.starts_with_no_case, Buffer.first_token_of_no_case, Buffer.expected,
        Buffer.read_between, Buffer.peek, filterKindStr, filterTargetStr,
        startsWithL, startsWithNoCaseL, parse_number, parse_weekday, strL,
        Bind.bind, PResult.bind, Pure.pure, natOfDigits, usizeMax,
        hd, hdp, hrx, scanTo_append, List.find?]
      omega
    | KeepUrl =>
      have e1 : strL "@ " ++ filterKindStr FilterType.KeepUrl ++ ' ' ::
          filterTargetStr FilterType.KeepUrl ++ ' ' :: d :: (pat ++ d :: rest) =
          '@' :: ' ' :: 'k' :: 'e' :: 'e' :: 'p' :: ' ' :: 'u' :: 'r' :: 'l' ::
            ' ' :: d :: (pat ++ d :: rest) := rfl
      rw [e1]
      simp +decide [parse_policy, Buffer.token, Buffer.token_no_case, Buffer.space,
        Buffer.space_or_end, Buffer.trim_start, Buffer.advance, Buffer.starts_with,
        Buffer.starts_with_no_case, Buffer.first_token_of_no_case, Buffer.expected,
        Buffer.read_between, Buffer.peek, filterKindStr, filterTargetStr,
        startsWithL, startsWithNoCaseL, parse_number, parse_weekday, strL,
        Bind.bind, PResult.bind, Pure.pure, natOfDigits, usizeMax,
        hd, hdp, hrx, scanTo_append, List.find?]
      omega
    | IgnoreTitle =>
      have e1 : strL "@ " ++ filterKindStr FilterType.IgnoreTitle ++ ' ' ::
          filterTargetStr FilterType.IgnoreTitle ++ ' ' :: d :: (pat ++ d :: rest) =
          '@' :: ' ' :: 'i' :: 'g' :: 'n' :: 'o' :: 'r' :: 'e' :: ' ' :: 't' :: 'i' :: 't' ::
            'l' :: 'e' :: ' ' :: d :: (pat ++ d :: rest) := rfl
      rw [e1]
      simp +decide [parse_policy, Buffer.token, Buffer.token_no_case, Buffer.space,
        Buffer.space_or_end, Buffer.trim_start, Buffer.advance, Buffer.starts_with,
        Buffer.starts_with_no_case, Buffer.first_token_of_no_case, Buffer.expected,
        Buffer.read_between, Buffer.peek, filterKindStr, filterTargetStr,
        startsWithL, startsWithNoCaseL, parse_number, parse_weekday, strL,
        Bind.bind, PResult.bind, Pure.pure, natOfDigits, usizeMax,
        hd, hdp, hrx, scanTo_append, List.find?]
      omega
    | IgnoreUrl =>
      have e1 : strL "@ " ++ filterKindStr FilterType.IgnoreUrl ++ ' ' ::
          filterTargetStr FilterType.IgnoreUrl ++ ' ' :: d :: (pat ++ d :: rest) =
          '@' :: ' ' :: 'i' :: 'g' :: 'n' :: 'o' :: 'r' :: 'e' :: ' ' :: 'u' :: 'r' :: 'l' ::
            ' ' :: d :: (pat ++ d :: rest) := rfl
      rw [e1]
      simp +decide [parse_policy, Buffer.token, Buffer.token_no_case, Buffer.space,
        Buffer.space_or_end, Buffer.trim_start, Buffer.advance, Buffer.starts_with,
        Buffer.starts_with_no_case, Buffer.first_token_of_no_case, Buffer.expected,
        Buffer.read_between, Buffer.peek, filterKindStr, filterTargetStr,
        startsWithL, startsWithNoCaseL, parse_number, parse_weekday, strL,
        Bind.bind, PResult.bind, Pure.pure, natOfDigits, usizeMax,
        hd, hdp, hrx, scanTo_append, List.find?]
      omega
  · intro emsg hrx
    refine ⟨?_, ?_, ?_⟩
    · cases ft with
      | KeepTitle =>
        have e1 : strL "@ " ++ filterKindStr FilterType.KeepTitle ++ ' ' ::
            filterTargetStr FilterType.KeepTitle ++ ' ' :: d :: (pat ++ d :: rest) =
            '@' :: ' ' :: 'k' :: 'e' :: 'e' :: 'p' :: ' ' :: 't' :: 'i' :: 't' :: 'l' :: 'e' ::
              ' ' :: d :: (pat ++ d :: rest) := rfl
        rw [e1]
        simp +decide [parse_policy, Buffer.token, Buffer.token_no_case, Buffer.space,
          Buffer.space_or_end, Buffer.trim_start, Buffer.advance, Buffer.starts_with,
          Buffer.starts_with_no_case, Buffer.first_token_of_no_case, Buffer.expected,
          Buffer.read_between, Buffer.peek, filterKindStr, filterTargetStr,
          startsWithL, startsWithNoCaseL, parse_number, parse_weekday, strL,
          Bind.bind, PResult.bind, Pure.pure, natOfDigits, usizeMax,
          hd, hdp, hrx, scanTo_append, List.find?]
        omega
      | KeepUrl =>
        have e1 : strL "@ " ++ filterKindStr FilterType.KeepUrl ++ ' ' ::
            filterTargetStr FilterType.KeepUrl ++ ' ' :: d :: (pat ++ d :: rest) =
            '@' :: ' ' :: 'k' :: 'e' :: 'e' :: 'p' :: ' ' :: 'u' :: 'r' :: 'l' ::
              ' ' :: d :: (pat ++ d :: rest) := rfl
        rw [e1]
        simp +decide [parse_policy, Buffer.token, Buffer.token_no_case, Buffer.space,
          Buffer.space_or_end, Buffer.trim_start, Buffer.advance, Buffer.starts_with,
          Buffer.starts_with_no_case, Buffer.first_token_of_no_case, Buffer.expected,
          Buffer.read_between, Buffer.peek, filterKindStr, filterTargetStr,
          startsWithL, startsWithNoCaseL, parse_number, parse_weekday, strL,
          Bind.bind, PResult.bind, Pure.pure, natOfDigits, usizeMax,
          hd, hdp, hrx, scanTo_append, List.find?]
        omega
      | IgnoreTitle =>
        have e1 : strL "@ " ++ filterKindStr FilterType.IgnoreTitle ++ ' ' ::
            filterTargetStr FilterType.IgnoreTitle ++ ' ' :: d :: (pat ++ d :: rest) =
            '@' :: ' ' :: 'i' :: 'g' :: 'n' :: 'o' :: 'r' :: 'e' :: ' ' :: 't' :: 'i' :: 't' ::
              'l' :: 'e' :: ' ' :: d :: (pat ++ d :: rest) := rfl
        rw [e1]
        simp +decide [parse_policy, Buffer.token, Buffer.token_no_case, Buffer.space,
          Buffer.space_or_end, Buffer.trim_start, Buffer.advance, Buffer.starts_with,
          Buffer.starts_with_no_case, Buffer.first_token_of_no_case, Buffer.expected,
          Buffer.read_between, Buffer.peek, filterKindStr, filterTargetStr,
          startsWithL, startsWithNoCaseL, parse_number, parse_weekday, strL,
          Bind.bind, PResult.bind, Pure.pure, natOfDigits, usizeMax,
          hd, hdp, hrx, scanTo_append, List.find?]
        omega
      | IgnoreUrl =>
        have e1 : strL "@ " ++ filterKindStr FilterType.IgnoreUrl ++ ' ' ::
            filterTargetStr FilterType.IgnoreUrl ++ ' ' :: d :: (pat ++ d :: rest) =
            '@' :: ' ' :: 'i' :: 'g' :: 'n' :: 'o' :: 'r' :: 'e' :: ' ' :: 'u' :: 'r' :: 'l' ::
              ' ' :: d :: (pat ++ d :: rest) := rfl
        rw [e1]
        simp +decide [parse_policy, Buffer.token, Buffer.token_no_case, Buffer.space,
          Buffer.space_or_end, Buffer.trim_start, Buffer.advance, Buffer.starts_with,
          Buffer.starts_with_no_case, Buffer.first_token_of_no_case, Buffer.expected,
          Buffer.read_between, Buffer.peek, filterKindStr, filterTargetStr,
          startsWithL, startsWithNoCaseL, parse_number, parse_weekday, strL,
          Bind.bind, PResult.bind, Pure.pure, natOfDigits, usizeMax,
          hd, hdp, hrx, scanTo_append, List.find?]
        omega
    · have hmsg : strL "/" ++ pat ++ strL "/ to be a valid pattern: " ++ emsg =
          strL "/" ++ (pat ++ (strL "/ to be a valid pattern: " ++ emsg)) := by
        simp [List.append_assoc]
      rw [hmsg]
      exact containsL_of_startsWith (startsWithL_self_append pat _) (strL "/")
    · exact containsL_of_startsWith (startsWithL_refl emsg) _

/-- C7 witness: `@ keep title /EGS:NP/` parses to
`Filter KeepTitle "EGS:NP"` under an accepting engine; under an engine
rejecting with diagnostic "unclosed group" it fails with a message
containing both the pattern and the diagnostic. -/
theorem parse_policy_filter_validation_witness :
    parse_policy rxAccept ⟨1, 0, strL "@ " ++ filterKindStr .KeepTitle ++ ' ' ::
        filterTargetStr .KeepTitle ++ ' ' :: '/' :: (strL "EGS:NP" ++ '/' :: [])⟩ =
      .ok (⟨1,
        0 + 6 + (filterKindStr .KeepTitle).length + (filterTargetStr .KeepTitle).length +
          (strL "EGS:NP").length, []⟩, .Filter .KeepTitle (strL "EGS:NP")) ∧
    containsL (strL "EGS:NP")
      (strL "/" ++ strL "EGS:NP" ++ strL "/ to be a valid pattern: " ++ strL "unclosed group") =
        true ∧
    containsL (strL "unclosed group")
      (strL "/" ++ strL "EGS:NP" ++ strL "/ to be a valid pattern: " ++ strL "unclosed group") =
        true :=
  ⟨(parse_policy_filter_validation rxAccept 1 0 .KeepTitle '/' (strL "EGS:NP") []
      (by decide) (by decide)).1 rfl,
   ((parse_policy_filter_validation rxRejectAll 1 0 .KeepTitle '/' (strL "EGS:NP") []
      (by decide) (by decide)).2 (strL "unclosed group") rfl).2.1,
   ((parse_policy_filter_validation rxRejectAll 1 0 .KeepTitle '/' (strL "EGS:NP") []
      (by decide) (by decide)).2 (strL "unclosed group") rfl).2.2⟩

/-- C8: `parse_weekday` accepts exactly the seven full English day names,
case-insensitively, returning the corresponding weekday and consuming the
name; if the input begins with none of the seven names it fails with the
"a weekday" expected-construct error. -/
theorem parse_weekday_exact_names (buf : Buffer) :
    (∀ w ∈ weekdayList, buf.starts_with_no_case (weekdayName w) = true →
      parse_weekday buf = .ok (buf.advance (weekdayName w).length, w)) ∧
    ((∀ w ∈ weekdayList, buf.starts_with_no_case (weekdayName w) = false) →
      parse_weekday buf =
        .err (.ExpectedMsg (strL "a weekday") buf.row (some (buf.col, buf.col)))) := by
  constructor
  · intro w _ hsw
    have excl : ∀ nm : List Char, startsWithNoCaseL nm (weekdayName w) = false →
        startsWithNoCaseL (weekdayName w) nm = false →
        buf.starts_with_no_case nm = false := by
      intro nm h1 h2
      exact startsWithNoCaseL_exclusive hsw h1 h2
    cases w with
    | sun => simp only [parse_weekday, Buffer.starts_with_no_case] at hsw ⊢
             rw [weekdayName] at hsw; simp [hsw, weekdayName]; try rfl
    | mon =>
      have h1 := excl (strL "sunday") (by decide) (by decide)
      simp only [parse_weekday, Buffer.starts_with_no_case] at hsw h1 ⊢
      rw [weekdayName] at hsw; simp [hsw, h1, weekdayName]; try rfl
    | tue =>
      have h1 := excl (strL "sunday") (by decide) (by decide)
      have h2 := excl (strL "monday") (by decide) (by decide)
      simp only [parse_weekday, Buffer.starts_with_no_case] at hsw h1 h2 ⊢
      rw [weekdayName] at hsw; simp [hsw, h1, h2, weekdayName]; try rfl
    | wed =>
      have h1 := excl (strL "sunday") (by decide) (by decide)
      have h2 := excl (strL "monday") (by decide) (by decide)
      have h3 := excl (strL "tuesday") (by decide) (by decide)
      simp only [parse_weekday, Buffer.starts_with_no_case] at hsw h1 h2 h3 ⊢
      rw [weekdayName] at hsw; simp [hsw, h1, h2, h3, weekdayName]; try rfl
    | thu =>
      have h1 := excl (strL "sunday") (by decide) (by decide)
      have h2 := excl (strL "monday") (by decide) (by decide)
      have h3 := excl (strL "tuesday") (by decide) (by decide)
      have h4 := excl (strL "wednesday") (by decide) (by decide)
      simp only [parse_weekday, Buffer.starts_with_no_case] at hsw h1 h2 h3 h4 ⊢
      rw [weekdayName] at hsw; simp [hsw, h1, h2, h3, h4, weekdayName]; try rfl
    | fri =>
      have h1 := excl (strL "sunday") (by decide) (by decide)
      have h2 := excl (strL "monday") (by decide) (by decide)
      have h3 := excl (strL "tuesday") (by decide) (by decide)
      have h4 := excl (strL "wednesday") (by decide) (by decide)
      have h5 := excl (strL "thursday") (by decide) (by decide)
      simp only [parse_weekday, Buffer.starts_with_no_case] at hsw h1 h2 h3 h4 h5 ⊢
      rw [weekdayName] at hsw; simp [hsw, h1, h2, h3, h4, h5, weekdayName]; try rfl
    | sat =>
      have h1 := excl (strL "sunday") (by decide) (by decide)
      have h2 := excl (strL "monday") (by decide) (by decide)
      have h3 := excl (strL "tuesday") (by decide) (by decide)
      have h4 := excl (strL "wednesday") (by decide) (by decide)
      have h5 := excl (strL "thursday") (by decide) (by decide)
      have h6 := excl (strL "friday") (by decide) (by decide)
      simp only [parse_weekday, Buffer.starts_with_no_case] at hsw h1 h2 h3 h4 h5 h6 ⊢
      rw [weekdayName] at hsw; simp [hsw, h1, h2, h3, h4, h5, h6, weekdayName]; try rfl
  · intro h
    have h1 := h .sun (by simp [weekdayList])
    have h2 := h .mon (by simp [weekdayList])
    have h3 := h .tue (by simp [weekdayList])
    have h4 := h .wed (by simp [weekdayList])
    have h5 := h .thu (by simp [weekdayList])
    have h6 := h .fri (by simp [weekdayList])
    have h7 := h .sat (by simp [weekdayList])
    simp only [weekdayName] at h1 h2 h3 h4 h5 h6 h7
    simp [parse_weekday, h1, h2, h3, h4, h5, h6, h7, Buffer.expected]

/-- C8 witness: `wendsday` (at row 2, column 49, as in the repository's
own test) matches no weekday name and yields the "a weekday" error there;
`WedNesday!` is accepted case-insensitively as Wednesday. -/
theorem parse_weekday_exact_names_witness :
    parse_weekday ⟨2, 49, strL "wendsday"⟩ =
      .err (.ExpectedMsg (strL "a weekday") 2 (some (49, 49))) ∧
    parse_weekday ⟨1, 0, strL "WedNesday!"⟩ = .ok (⟨1, 9, ['!']⟩, .wed) :=
  ⟨(parse_weekday_exact_names ⟨2, 49, strL "wendsday"⟩).2 (by decide),
   (parse_weekday_exact_names ⟨1, 0, strL "WedNesday!"⟩).1 .wed (by decide) (by decide)⟩

/-- C5: whenever `parse_line` succeeds, its `FeedInfo` was built from the
name, the URL and the parsed clause list `ps`; `update_policies` is the
set of `ps`, so its cardinality is the number of structurally distinct
specs in `ps`, and two `Filter` specs of equal kind but different pattern
strings are distinct members. -/
theorem parse_line_update_policies_card
    (rx : List Char → Option (List Char)) (buf bout : Buffer) (fi : FeedInfo)
    (h : parse_line rx buf = .ok (bout, fi)) :
    ∃ b1 name b2 url ps,
      parse_name buf = .ok (b1, name) ∧
      parse_url b1.trim_start = .ok (b2, url) ∧
      parse_policies rx b2.trim_start = .ok (bout, ps) ∧
      fi = ⟨name, url, ps.toFinset, none, none⟩ ∧
      fi.update_policies.card = ps.dedup.length ∧
      (∀ k p q, UpdateSpec.Filter k p ∈ ps → UpdateSpec.Filter k q ∈ ps → p ≠ q →
        UpdateSpec.Filter k p ∈ fi.update_policies ∧
        UpdateSpec.Filter k q ∈ fi.update_policies ∧
        UpdateSpec.Filter k p ≠ UpdateSpec.Filter k q) := by
  simp only [parse_line, Bind.bind, PResult.bind, Pure.pure] at h
  cases hn : parse_name buf with
  | err e => simp only [hn] at h; exact PResult.noConfusion h
  | panic => simp only [hn] at h; exact PResult.noConfusion h
  | ok v =>
    obtain ⟨b1, name⟩ := v
    simp only [hn] at h
    cases hu : parse_url b1.trim_start with
    | err e => simp only [hu] at h; exact PResult.noConfusion h
    | panic => simp only [hu] at h; exact PResult.noConfusion h
    | ok w =>
      obtain ⟨b2, url⟩ := w
      simp only [hu] at h
      cases hp : parse_policies rx b2.trim_start with
      | err e => simp only [hp] at h; exact PResult.noConfusion h
      | panic => simp only [hp] at h; exact PResult.noConfusion h
      | ok z =>
        obtain ⟨b3, ps⟩ := z
        simp only [hp] at h
        obtain ⟨rfl, rfl⟩ :
            b3 = bout ∧ (⟨name, url, ps.toFinset, none, none⟩ : FeedInfo) = fi := by
          injection h with hh
          exact Prod.ext_iff.mp hh
        refine ⟨b1, name, b2, url, ps, rfl, hu, hp, rfl, ?_, ?_⟩
        · exact List.card_toFinset ps
        · intro k p q hkp hkq hne
          refine ⟨List.mem_toFinset.mpr hkp, List.mem_toFinset.mpr hkq, ?_⟩
          simp [hne]

/-- C5 witness: the line
`"A" <u> @ every 2 days @ every 2 days @ keep title /a/ @ keep title /b/`
has clause list `[Every 2, Every 2, Filter KeepTitle "a",
Filter KeepTitle "b"]`; its `update_policies` has cardinality 3. -/
theorem parse_line_update_policies_card_witness :
    ∃ b1 name b2 url ps,
      parse_name
          ⟨1, 0, strL "\"A\" <u> @ every 2 days @ every 2 days @ keep title /a/ @ keep title /b/"⟩ =
        .ok (b1, name) ∧
      parse_url b1.trim_start = .ok (b2, url) ∧
      parse_policies rxAccept b2.trim_start = .ok (⟨1, 71, []⟩, ps) ∧
      (⟨strL "A", strL "u",
        [UpdateSpec.Every 2, UpdateSpec.Every 2,
         UpdateSpec.Filter .KeepTitle ['a'],
         UpdateSpec.Filter .KeepTitle ['b']].toFinset, none, none⟩ : FeedInfo) =
        ⟨name, url, ps.toFinset, none, none⟩ ∧
      (⟨strL "A", strL "u",
        [UpdateSpec.Every 2, UpdateSpec.Every 2,
         UpdateSpec.Filter .KeepTitle ['a'],
         UpdateSpec.Filter .KeepTitle ['b']].toFinset, none, none⟩ : FeedInfo).update_policies.card =
        ps.dedup.length ∧
      (∀ k p q, UpdateSpec.Filter k p ∈ ps → UpdateSpec.Filter k q ∈ ps → p ≠ q →
        UpdateSpec.Filter k p ∈
          (⟨strL "A", strL "u",
            [UpdateSpec.Every 2, UpdateSpec.Every 2,
             UpdateSpec.Filter .KeepTitle ['a'],
             UpdateSpec.Filter .KeepTitle ['b']].toFinset, none, none⟩ : FeedInfo).update_policies ∧
        UpdateSpec.Filter k q ∈
          (⟨strL "A", strL "u",
            [UpdateSpec.Every 2, UpdateSpec.Every 2,
             UpdateSpec.Filter .KeepTitle ['a'],
             UpdateSpec.Filter .KeepTitle ['b']].toFinset, none, none⟩ : FeedInfo).update_policies ∧
        UpdateSpec.Filter k p ≠ UpdateSpec.Filter k q) :=
  parse_line_update_policies_card rxAccept
    ⟨1, 0, strL "\"A\" <u> @ every 2 days @ every 2 days @ keep title /a/ @ keep title /b/"⟩
    ⟨1, 71, []⟩
    ⟨strL "A", strL "u",
      [UpdateSpec.Every 2, UpdateSpec.Every 2,
       UpdateSpec.Filter .KeepTitle ['a'],
       UpdateSpec.Filter .KeepTitle ['b']].toFinset, none, none⟩
    (by decide)

/-- C1: `parse_number` runs `.parse::<usize>().expect(..)`, which panics when
the digit run exceeds `usize::MAX`; so the configuration line
`"A" <http://a> @ every 99999999999999999999999 days` makes `parse_config`
panic instead of returning a `ParseError`, contradicting the spec's
"never an uncatchable fault". -/
theorem parse_config_huge_number_panics :
    parse_config rxAccept
      (strL "\"A\" <http://a> @ every 99999999999999999999999 days") = .panic := by
  decide

/-- C9: `parse_command` tokenizes
`example "command here" 'single quotes' then-something` into exactly the
four arguments, quoted spans kept whole with their quotes stripped. -/
theorem parse_command_example_tokens :
    parse_command (strL "example \"command here\" 'single quotes' then-something") =
      .ok [strL "example", strL "command here", strL "single quotes",
           strL "then-something"] := by
  decide

/-- C4: the event-grammar fallback of `parse_events` reports the 0-based
line index (`row`) instead of the 1-based row used everywhere else: the
single-line input `bogus` (line 1) yields an error citing row 0.  Likewise
an error while tokenizing a `command` directive's arguments is raised on a
fresh buffer with row 0, not the directive's row: `command "x` on line 1
yields an error citing row 0. -/
theorem parse_events_grammar_error_row_zero :
    parse_events chronoAccept (strL "bogus") =
      .err (.ExpectedMsg eventsGrammarMsg 0 none) ∧
    parse_config rxAccept (strL "command \"x") =
      .err (.Expected '"' 0 (some (1, 1))) := by
  constructor
  · decide
  · decide

/-- C2 counterexample: the claim says a feed line with leftover
non-whitespace text after the last recognized construct fails with a
`ParseError`; but `parse_config` discards the unconsumed remainder
(`let (_, mut feed) = parse_line(&buf)?`), so `"A" <http://x> junk`
parses successfully. -/
theorem parse_config_trailing_junk_accepted :
    parse_config rxAccept (strL "\"A\" <http://x> junk") =
      .ok [⟨strL "A", strL "http://x", ∅, none, none⟩] := by
  decide

/-- C3 counterexample: the claim says every `@` clause, including the
leading-digit form, must be terminated by whitespace or end of input; but
the `<n> new comic|comics` branch has no `space_or_end`, so
`@ 3 new comicsX` parses as `Comics 3` with `X` left unconsumed. -/
theorem parse_policy_comics_clause_absorbs_trailing :
    parse_policy rxAccept ⟨1, 0, strL "@ 3 new comicsX"⟩ =
      .ok (⟨1, 14, ['X']⟩, .Comics 3) := by
  decide

end Feedburst
